import Mathlib

/-!
Verification of the AHP computation core of the expert-scoring application
(`src/app.py`).  The Python functions are shallowly embedded over `ℝ`:

* `AHP.calculate_weights_and_consistency` (app.py, lines 616-634): the
  geometric-mean weight solver and the consistency evaluation, decomposed
  into the same intermediate quantities the Python code computes
  (`row_products`, `geometric_means`, `weights`, `weighted_sum`,
  `lambda_max`, `consistency_index`, `ri_values`, `cr_from`).
* `AHP.statusOf` (app.py, line 130): the status classification attached
  when a judgment is persisted.
* `AHP.buildJudgmentMatrix` (app.py, lines 522-575): the pairwise matrix
  assembled by the comparison interface (identity diagonal, upper triangle
  from the supplied intensities, lower triangle their reciprocals).
* `AHP.perform_comprehensive_analysis` (app.py, lines 709-734): the group
  aggregation with its two insufficient-data early returns (modelled as the
  `insufficientData` constructor carrying the count shown to the user) and
  the log-space geometric mean of the weight vectors of the experts whose
  consistency ratio passes the 0.2 filter.
* `AHP.composeHierarchy` (app.py, lines 929-961): the hierarchy rows
  produced on export; the string columns of each row (code, name, note)
  are fixed functions of the criterion label and the layer alone and are
  therefore not modelled; the weight-bearing fields all are.
-/

namespace AHP

/-- Status classification attached to a persisted judgment
(app.py line 130): excellent below 0.1, acceptable below 0.2,
unacceptable otherwise. -/
inductive ConsistencyStatus where
  | excellent
  | acceptable
  | unacceptable
deriving DecidableEq

/-- app.py line 130: `"excellent" if cr < 0.1 else "acceptable" if cr < 0.2
else "unacceptable"`. -/
noncomputable def statusOf (cr : ℝ) : ConsistencyStatus :=
  if cr < 0.1 then .excellent else if cr < 0.2 then .acceptable else .unacceptable

/-- app.py lines 377-380 together with line 631: the dictionary
`self.ri_values` with `.get(n, 1.45)`, i.e. the tabulated values for
`n = 1..10` and the default `1.45` for every other order. -/
noncomputable def ri_values (n : ℕ) : ℝ :=
  if n = 1 then 0
  else if n = 2 then 0
  else if n = 3 then 0.58
  else if n = 4 then 0.90
  else if n = 5 then 1.12
  else if n = 6 then 1.24
  else if n = 7 then 1.32
  else if n = 8 then 1.41
  else if n = 9 then 1.45
  else if n = 10 then 1.49
  else 1.45

/-- app.py line 621: `row_products = np.prod(judgment_matrix, axis=1)`. -/
noncomputable def row_products (n : ℕ) (M : Fin n → Fin n → ℝ) (i : Fin n) : ℝ :=
  ∏ j, M i j

/-- app.py line 622: `geometric_means = np.power(row_products, 1 / n)`. -/
noncomputable def geometric_means (n : ℕ) (M : Fin n → Fin n → ℝ) (i : Fin n) : ℝ :=
  row_products n M i ^ ((1 : ℝ) / n)

/-- app.py line 623: `weights = geometric_means / np.sum(geometric_means)`. -/
noncomputable def weights (n : ℕ) (M : Fin n → Fin n → ℝ) (i : Fin n) : ℝ :=
  geometric_means n M i / ∑ k, geometric_means n M k

/-- app.py line 626: `weighted_sum = np.dot(judgment_matrix, weights)`. -/
noncomputable def weighted_sum (n : ℕ) (M : Fin n → Fin n → ℝ) (i : Fin n) : ℝ :=
  ∑ j, M i j * weights n M j

/-- app.py line 627: `lambda_max = np.sum(weighted_sum / weights) / n`. -/
noncomputable def lambda_max (n : ℕ) (M : Fin n → Fin n → ℝ) : ℝ :=
  (∑ i, weighted_sum n M i / weights n M i) / n

/-- app.py line 630: `ci = (lambda_max - n) / (n - 1) if n > 1 else 0`. -/
noncomputable def consistency_index (n : ℕ) (lam : ℝ) : ℝ :=
  if 1 < n then (lam - n) / (n - 1) else 0

/-- app.py lines 631-632: `ri = self.ri_values.get(n, 1.45)` followed by
`cr = ci / ri if ri > 0 else 0`. -/
noncomputable def cr_from (n : ℕ) (ci : ℝ) : ℝ :=
  if 0 < ri_values n then ci / ri_values n else 0

/-- app.py lines 616-634: the full `calculate_weights_and_consistency`,
returning `(weights, cr, lambda_max)` exactly as the Python function does. -/
noncomputable def calculate_weights_and_consistency (n : ℕ) (M : Fin n → Fin n → ℝ) :
    (Fin n → ℝ) × ℝ × ℝ :=
  (weights n M, cr_from n (consistency_index n (lambda_max n M)), lambda_max n M)

/-- app.py lines 522-575: the comparison interface initialises the
judgment matrix to the identity (`np.eye(n)`, line 524) and, for every
pair `i < j`, stores the chosen intensity at `[i, j]` and its reciprocal
at `[j, i]` (lines 574-575).  `v i j` is the intensity supplied for the
pair `(i, j)` with `i < j`; no validation of the value is performed.
The embedding is faithful exactly for nonzero intensities: at
`v i j = 0` Python's `1 / importance` (line 575) raises a bare
ZeroDivisionError while Lean's totalized division returns 0, so no
theorem below states anything about the zero case. -/
noncomputable def buildJudgmentMatrix (n : ℕ) (v : Fin n → Fin n → ℝ) :
    Fin n → Fin n → ℝ :=
  fun i j => if i = j then 1 else if i < j then v i j else 1 / v j i

/-- One expert's persisted judgment for a level as consumed by the group
analysis (app.py lines 140-156): the stored weight vector and consistency
value.  Only the fields the aggregation reads are modelled. -/
structure ExpertJudgment (nc : ℕ) where
  weights : Fin nc → ℝ
  cr : ℝ

/-- app.py line 722: `valid_judgments = {k: v for k, v in
expert_judgments.items() if v["cr"] < 0.2}` (dict modelled as a list). -/
noncomputable def valid_judgments (nc : ℕ) (js : List (ExpertJudgment nc)) :
    List (ExpertJudgment nc) :=
  js.filter (fun j => decide (j.cr < 0.2))

/-- app.py lines 732-734: the log-space geometric mean of the expert
weight vectors (`np.exp(np.mean(np.log(all_weights), axis=0))`) followed
by the renormalisation `group_weights / np.sum(group_weights)`.  `js` is
the already-filtered expert list. -/
noncomputable def group_weights (nc : ℕ) (js : List (ExpertJudgment nc))
    (i : Fin nc) : ℝ :=
  Real.exp ((js.map (fun j => Real.log (j.weights i))).sum / js.length) /
    ∑ k, Real.exp ((js.map (fun j => Real.log (j.weights k))).sum / js.length)

/-- Result of the group analysis: either one of the two early returns of
`perform_comprehensive_analysis` (app.py lines 716-727), which return
`None` after displaying the count in an `st.info` message (the count is
the payload of `insufficientData`), or the computed group weight vector. -/
inductive GroupAnalysisResult (nc : ℕ) where
  | insufficientData (count : ℕ)
  | groupResult (gw : Fin nc → ℝ)

/-- app.py lines 709-734, the decision structure of
`perform_comprehensive_analysis`: fewer than 2 completed judgments
reports the completed count (lines 716-719); otherwise fewer than 2
judgments passing the `cr < 0.2` filter reports the filtered count
(lines 722-727); otherwise the group weights are computed from the
filtered judgments (lines 731-734). -/
noncomputable def perform_comprehensive_analysis (nc : ℕ)
    (js : List (ExpertJudgment nc)) : GroupAnalysisResult nc :=
  if js.length < 2 then .insufficientData js.length
  else if (valid_judgments nc js).length < 2 then
    .insufficientData (valid_judgments nc js).length
  else .groupResult (group_weights nc (valid_judgments nc js))

/-- One row of the exported hierarchy table (app.py lines 938-961).
Criteria are identified by position, `idx` being the position of a
top-level criterion and `(parent, child)` the positions of a
sub-criterion; the string columns of the Python dict (code, name, note,
and the `'100%'` relative weight of top rows) are fixed functions of
these positions and the layer and carry no further information. -/
inductive HierarchyRow where
  | top (idx : ℕ) (absoluteWeight : ℝ)
  | sub (parent : ℕ) (child : ℕ) (absoluteWeight : ℝ) (relativeWeight : ℝ)

/-- app.py lines 952-961: the inner loop
`for j, level2_criterion in enumerate(level2_criteria)` producing one
sub-criterion row with absolute weight `level1_weight * level2_weights[j]`
and relative weight `level2_weights[j]`; `j` is the running index. -/
noncomputable def sub_rows (parent : ℕ) (topW : ℝ) : ℕ → List ℝ → List HierarchyRow
  | _, [] => []
  | j, w :: rest => HierarchyRow.sub parent j (topW * w) w :: sub_rows parent topW (j + 1) rest

/-- app.py lines 935-961: the outer loop
`for i, criterion in enumerate(level1_criteria)`: one top-level row per
criterion, followed by its sub-criterion rows when
`criterion in level_weights` (a completed sub-level analysis exists,
modelled as `subW i = some ws`) and by nothing otherwise. -/
noncomputable def hierarchy_rows (subW : ℕ → Option (List ℝ)) :
    ℕ → List ℝ → List HierarchyRow
  | _, [] => []
  | i, w :: rest =>
      (HierarchyRow.top i w ::
        (match subW i with
          | none => []
          | some ws => sub_rows i w 0 ws)) ++ hierarchy_rows subW (i + 1) rest

/-- The full hierarchy table built on export (app.py lines 929-963):
`topW` is the group weight vector of the top-level criteria and `subW`
maps a top-level position to the group weight vector of its sub-criteria
when that sub-level analysis completed. -/
noncomputable def composeHierarchy (topW : List ℝ) (subW : ℕ → Option (List ℝ)) :
    List HierarchyRow :=
  hierarchy_rows subW 0 topW

/-- The absolute weight a row contributes to the leaf total: sub-criterion
rows are the leaves of a fully decomposed hierarchy. -/
noncomputable def leaf_weight : HierarchyRow → ℝ
  | .top _ _ => 0
  | .sub _ _ aw _ => aw

/-- Sum of the absolute weights over all sub-criterion (leaf) rows. -/
noncomputable def leafWeightSum (rows : List HierarchyRow) : ℝ :=
  (rows.map leaf_weight).sum

/-- The parent position a row belongs to (a top row belongs to itself). -/
def rowParent : HierarchyRow → ℕ
  | .top i _ => i
  | .sub p _ _ _ => p

/-- The worked 4×4 example of the specification: upper triangle
`M[0][1]=3, M[0][2]=5, M[0][3]=2, M[1][2]=2, M[1][3]=1/2, M[2][3]=1/4`,
reciprocals below the diagonal, ones on the diagonal. -/
noncomputable def exampleMatrix : Fin 4 → Fin 4 → ℝ :=
  ![![1, 3, 5, 2],
    ![1/3, 1, 2, 1/2],
    ![1/5, 1/2, 1, 1/4],
    ![1/2, 2, 4, 1]]

lemma row_products_pos {n : ℕ} {M : Fin n → Fin n → ℝ}
    (hM : ∀ i j, 0 < M i j) (i : Fin n) : 0 < row_products n M i :=
  Finset.prod_pos (fun j _ => hM i j)

lemma geometric_means_pos {n : ℕ} {M : Fin n → Fin n → ℝ}
    (hM : ∀ i j, 0 < M i j) (i : Fin n) : 0 < geometric_means n M i :=
  Real.rpow_pos_of_pos (row_products_pos hM i) _

lemma sum_geometric_means_pos {n : ℕ} (hn : 1 ≤ n) {M : Fin n → Fin n → ℝ}
    (hM : ∀ i j, 0 < M i j) : 0 < ∑ k, geometric_means n M k := by
  haveI : Nonempty (Fin n) := Fin.pos_iff_nonempty.mp hn
  exact Finset.sum_pos (fun k _ => geometric_means_pos hM k) Finset.univ_nonempty

lemma weights_pos {n : ℕ} (hn : 1 ≤ n) {M : Fin n → Fin n → ℝ}
    (hM : ∀ i j, 0 < M i j) (i : Fin n) : 0 < weights n M i :=
  div_pos (geometric_means_pos hM i) (sum_geometric_means_pos hn hM)

/-- Claim C2: for every positive reciprocal matrix of order n ≥ 1 the
weight solver returns `w[i] = (Π_j M[i][j])^(1/n) / Σ_k (Π_j M[k][j])^(1/n)`,
every entry is ≥ 0, the entries sum to 1 within 1e-9 absolute tolerance,
and for n = 1 the result is the vector [1.0].  (Proved for every strictly
positive matrix, which includes every positive reciprocal matrix.) -/
theorem weight_solver_normalization (n : ℕ) (M : Fin n → Fin n → ℝ)
    (hn : 1 ≤ n) (hM : ∀ i j, 0 < M i j) :
    (∀ i, weights n M i =
        (∏ j, M i j) ^ ((1 : ℝ) / n) / ∑ k, (∏ j, M k j) ^ ((1 : ℝ) / n))
    ∧ (∀ i, 0 ≤ weights n M i)
    ∧ |(∑ i, weights n M i) - 1| ≤ 1e-9
    ∧ (n = 1 → ∀ i, weights n M i = 1) := by
  refine ⟨fun i => rfl, fun i => (weights_pos hn hM i).le, ?_, ?_⟩
  · have hS : (∑ k, geometric_means n M k) ≠ 0 :=
      (sum_geometric_means_pos hn hM).ne'
    have : (∑ i, weights n M i) = 1 := by
      simp only [weights, ← Finset.sum_div]
      exact div_self hS
    rw [this]
    norm_num
  · intro h1
    subst h1
    intro i
    have h0 : i = 0 := Subsingleton.elim i 0
    subst h0
    have hg : (0 : ℝ) < geometric_means 1 M 0 := geometric_means_pos hM 0
    simp only [weights, Fin.sum_univ_one]
    exact div_self hg.ne'

/-- Claim C10: for every judgment matrix of order n ≥ 1 with strictly
positive entries, every component of the solver's weight vector is
strictly positive (not merely non-negative), so the element-wise division
by the weights in the lambda_max computation never divides by zero. -/
theorem weight_solver_positivity (n : ℕ) (M : Fin n → Fin n → ℝ)
    (hn : 1 ≤ n) (hM : ∀ i j, 0 < M i j) :
    (∀ i, 0 < weights n M i) ∧ (∀ i, weights n M i ≠ 0) :=
  ⟨fun i => weights_pos hn hM i, fun i => (weights_pos hn hM i).ne'⟩

/-- Witness for `weight_solver_positivity` at the 1×1 all-ones matrix. -/
theorem weight_solver_positivity_witness :
    0 < weights 1 (fun _ _ => (1 : ℝ)) 0 ∧ weights 1 (fun _ _ => (1 : ℝ)) 0 ≠ 0 := by
  have h := weight_solver_positivity 1 (fun _ _ => (1 : ℝ)) (by norm_num)
    (fun _ _ => by norm_num)
  exact ⟨h.1 0, h.2 0⟩

/-- Witness for `weight_solver_normalization` at the 1×1 all-ones matrix. -/
theorem weight_solver_normalization_witness :
    (∀ i, weights 1 (fun _ _ => (1 : ℝ)) i = 1)
    ∧ |(∑ i, weights 1 (fun _ _ => (1 : ℝ)) i) - 1| ≤ 1e-9 := by
  have h := weight_solver_normalization 1 (fun _ _ => (1 : ℝ)) (by norm_num)
    (fun _ _ => by norm_num)
  exact ⟨h.2.2.2 rfl, h.2.2.1⟩

/-- Claim C3: the constructed judgment matrix satisfies `M[i][j] = v[i][j]`
and `M[j][i] = 1/v[i][j]` for i < j, `M[i][i] = 1`, and consequently
`M[i][j] * M[j][i] = 1` within tolerance 1e-9 for all i, j, whenever the
supplied intensities are strictly positive. -/
theorem judgment_matrix_construction (n : ℕ) (v : Fin n → Fin n → ℝ)
    (hv : ∀ i j : Fin n, i < j → 0 < v i j) :
    (∀ i j : Fin n, i < j → buildJudgmentMatrix n v i j = v i j)
    ∧ (∀ i j : Fin n, i < j → buildJudgmentMatrix n v j i = 1 / v i j)
    ∧ (∀ i : Fin n, buildJudgmentMatrix n v i i = 1)
    ∧ (∀ i j : Fin n,
        |buildJudgmentMatrix n v i j * buildJudgmentMatrix n v j i - 1| ≤ 1e-9) := by
  have hupper : ∀ i j : Fin n, i < j → buildJudgmentMatrix n v i j = v i j := by
    intro i j h
    simp only [buildJudgmentMatrix]
    rw [if_neg h.ne, if_pos h]
  have hlower : ∀ i j : Fin n, i < j → buildJudgmentMatrix n v j i = 1 / v i j := by
    intro i j h
    simp only [buildJudgmentMatrix]
    rw [if_neg h.ne', if_neg (not_lt.mpr h.le)]
  have hdiag : ∀ i : Fin n, buildJudgmentMatrix n v i i = 1 := by
    intro i
    simp [buildJudgmentMatrix]
  refine ⟨hupper, hlower, hdiag, fun i j => ?_⟩
  rcases lt_trichotomy i j with h | h | h
  · rw [hupper i j h, hlower i j h, mul_one_div, div_self (hv i j h).ne']
    norm_num
  · subst h
    rw [hdiag i]
    norm_num
  · rw [hupper j i h, hlower j i h, one_div, inv_mul_cancel₀ (hv j i h).ne']
    norm_num

/-- Witness for `judgment_matrix_construction` at n = 2 with intensity 2. -/
theorem judgment_matrix_construction_witness :
    buildJudgmentMatrix 2 (fun _ _ => (2 : ℝ)) 0 1 = 2
    ∧ buildJudgmentMatrix 2 (fun _ _ => (2 : ℝ)) 0 0 = 1
    ∧ |buildJudgmentMatrix 2 (fun _ _ => (2 : ℝ)) 0 1 *
        buildJudgmentMatrix 2 (fun _ _ => (2 : ℝ)) 1 0 - 1| ≤ 1e-9 := by
  have h := judgment_matrix_construction 2 (fun _ _ => (2 : ℝ))
    (fun _ _ _ => by norm_num)
  exact ⟨h.1 0 1 (by decide), h.2.2.1 0, h.2.2.2 0 1⟩

lemma ri_values_of_gt_ten (n : ℕ) (h : 10 < n) : ri_values n = 1.45 := by
  unfold ri_values
  split_ifs <;> first | rfl | omega

lemma ri_values_eq_zero_iff (n : ℕ) (hn : 1 ≤ n) : ri_values n = 0 ↔ n ≤ 2 := by
  rcases Nat.lt_or_ge n 11 with h | h
  · interval_cases n <;> norm_num [ri_values]
  · rw [ri_values_of_gt_ten n (by omega)]
    constructor
    · intro h0
      norm_num at h0
    · intro h2
      omega

/-- Claim C1: the consistency evaluation returns
`lambda_max = (1/n) * Σ_i (s[i]/w[i])` with `s[i] = Σ_j M[i][j]*w[j]`;
`CI = (lambda_max - n)/(n - 1)` for n > 1 and `CI = 0` for n = 1;
`CR = CI/RI(n)` with the tabulated RI values and 1.45 for n > 10, and
`CR = 0` whenever `RI(n) = 0` (exactly the orders n ≤ 2 among n ≥ 1), so
no division by zero occurs; the status is excellent iff CR < 0.10,
acceptable iff 0.10 ≤ CR < 0.20, and unacceptable iff CR ≥ 0.20. -/
theorem consistency_evaluation_spec (n : ℕ) (M : Fin n → Fin n → ℝ) (hn : 1 ≤ n) :
    calculate_weights_and_consistency n M =
      (weights n M, cr_from n (consistency_index n (lambda_max n M)), lambda_max n M)
    ∧ lambda_max n M = (∑ i, (∑ j, M i j * weights n M j) / weights n M i) / n
    ∧ (1 < n → consistency_index n (lambda_max n M) = (lambda_max n M - n) / (n - 1))
    ∧ (n = 1 → consistency_index n (lambda_max n M) = 0)
    ∧ (0 < ri_values n → cr_from n (consistency_index n (lambda_max n M)) =
        consistency_index n (lambda_max n M) / ri_values n)
    ∧ (ri_values n = 0 → cr_from n (consistency_index n (lambda_max n M)) = 0)
    ∧ (ri_values n = 0 ↔ n ≤ 2)
    ∧ (10 < n → ri_values n = 1.45)
    ∧ (∀ c : ℝ, statusOf c = .excellent ↔ c < 0.1)
    ∧ (∀ c : ℝ, statusOf c = .acceptable ↔ 0.1 ≤ c ∧ c < 0.2)
    ∧ (∀ c : ℝ, statusOf c = .unacceptable ↔ 0.2 ≤ c) := by
  refine ⟨rfl, rfl, ?_, ?_, ?_, ?_, ri_values_eq_zero_iff n hn,
    ri_values_of_gt_ten n, ?_, ?_, ?_⟩
  · intro h
    simp [consistency_index, h]
  · intro h
    subst h
    simp [consistency_index]
  · intro h
    simp [cr_from, h]
  · intro h
    simp [cr_from, h]
  · intro c
    unfold statusOf
    split_ifs with h1 h2 <;> simp_all
  · intro c
    unfold statusOf
    split_ifs with h1 h2 <;> simp_all
  · intro c
    unfold statusOf
    split_ifs with h1 h2 <;> simp_all
    linarith

/-- Witness for `consistency_evaluation_spec` at n = 3 and the all-ones
matrix: the RI(3)=0.58 baseline is nonzero and the status thresholds. -/
theorem consistency_evaluation_spec_witness :
    (ri_values 3 = 0 ↔ (3 : ℕ) ≤ 2)
    ∧ (statusOf 0 = .excellent ↔ (0 : ℝ) < 0.1)
    ∧ (consistency_index 3 (lambda_max 3 (fun _ _ => (1 : ℝ))) =
        (lambda_max 3 (fun _ _ => (1 : ℝ)) - 3) / (3 - 1)) := by
  have h := consistency_evaluation_spec 3 (fun _ _ => (1 : ℝ)) (by norm_num)
  refine ⟨h.2.2.2.2.2.2.1, h.2.2.2.2.2.2.2.2.1 0, ?_⟩
  have h3 := h.2.2.1 (by norm_num)
  rw [h3]
  norm_num

/-- Counterexample to claim C6: for n = 11 the consistency evaluation uses
the default RI value 1.45 (app.py line 631, `self.ri_values.get(n, 1.45)`),
not RI(10)'s tabulated value 1.49. -/
theorem ri_fallback_counterexample :
    ri_values 11 = 1.45 ∧ ri_values 10 = 1.49 ∧ ri_values 11 ≠ ri_values 10 := by
  refine ⟨?_, ?_, ?_⟩ <;> norm_num [ri_values]

/-- Claim C6 (amended): for every matrix order n > 10 the consistency
evaluation uses the default RI value 1.45 (which equals RI(9)'s tabulated
value, not RI(10)'s 1.49) rather than failing on the out-of-table lookup,
and the consistency ratio is then CI / 1.45. -/
theorem ri_fallback_amended (n : ℕ) (h : 10 < n) :
    ri_values n = 1.45 ∧ ∀ c : ℝ, cr_from n c = c / 1.45 := by
  have hr := ri_values_of_gt_ten n h
  refine ⟨hr, fun c => ?_⟩
  rw [cr_from, hr, if_pos (by norm_num)]

/-- Witness for `ri_fallback_amended` at n = 11, CI = 1. -/
theorem ri_fallback_amended_witness :
    ri_values 11 = 1.45 ∧ cr_from 11 1 = 1 / 1.45 :=
  ⟨(ri_fallback_amended 11 (by norm_num)).1, (ri_fallback_amended 11 (by norm_num)).2 1⟩

/-- Claim C4: with at least 2 experts passing the CR < 0.20 filter, all
with strictly positive weight vectors over the same n ≥ 1 criteria, the
group analysis returns the log-space geometric mean
`G[i] = exp(mean ln w_e[i])` renormalised by its sum, and the returned
group weights sum to 1 within 1e-9. -/
theorem group_aggregation_spec (nc : ℕ) (js : List (ExpertJudgment nc))
    (hnc : 1 ≤ nc) (hv : 2 ≤ (valid_judgments nc js).length)
    (_hw : ∀ j ∈ valid_judgments nc js, ∀ i, 0 < j.weights i) :
    perform_comprehensive_analysis nc js =
      .groupResult (group_weights nc (valid_judgments nc js))
    ∧ (∀ i, group_weights nc (valid_judgments nc js) i =
        Real.exp (((valid_judgments nc js).map (fun j => Real.log (j.weights i))).sum /
            (valid_judgments nc js).length) /
          ∑ k, Real.exp (((valid_judgments nc js).map (fun j => Real.log (j.weights k))).sum /
            (valid_judgments nc js).length))
    ∧ |(∑ i, group_weights nc (valid_judgments nc js) i) - 1| ≤ 1e-9 := by
  have hjs : ¬ js.length < 2 := by
    have hle : (valid_judgments nc js).length ≤ js.length :=
      List.length_filter_le _ _
    omega
  refine ⟨?_, fun i => rfl, ?_⟩
  · simp [perform_comprehensive_analysis, hjs, not_lt.mpr hv]
  · haveI : Nonempty (Fin nc) := Fin.pos_iff_nonempty.mp hnc
    have hS : (0 : ℝ) <
        ∑ k, Real.exp (((valid_judgments nc js).map (fun j => Real.log (j.weights k))).sum /
          (valid_judgments nc js).length) :=
      Finset.sum_pos (fun k _ => Real.exp_pos _) Finset.univ_nonempty
    have hsum : (∑ i, group_weights nc (valid_judgments nc js) i) = 1 := by
      simp only [group_weights, ← Finset.sum_div]
      exact div_self hS.ne'
    rw [hsum]
    norm_num

/-- Witness for `group_aggregation_spec`: two experts over one criterion,
both with CR 0 and unit weight. -/
theorem group_aggregation_spec_witness :
    perform_comprehensive_analysis 1 [⟨fun _ => (1 : ℝ), 0⟩, ⟨fun _ => (1 : ℝ), 0⟩] =
      .groupResult (group_weights 1
        (valid_judgments 1 [⟨fun _ => (1 : ℝ), 0⟩, ⟨fun _ => (1 : ℝ), 0⟩]))
    ∧ |(∑ i, group_weights 1
        (valid_judgments 1 [⟨fun _ => (1 : ℝ), 0⟩, ⟨fun _ => (1 : ℝ), 0⟩]) i) - 1| ≤ 1e-9 := by
  have hd : decide ((0 : ℝ) < 0.2) = true := decide_eq_true (by norm_num)
  have hval : valid_judgments 1 [⟨fun _ => (1 : ℝ), 0⟩, ⟨fun _ => (1 : ℝ), 0⟩] =
      [⟨fun _ => (1 : ℝ), 0⟩, ⟨fun _ => (1 : ℝ), 0⟩] := by
    simp [valid_judgments, List.filter, hd]
  have h := group_aggregation_spec 1 [⟨fun _ => (1 : ℝ), 0⟩, ⟨fun _ => (1 : ℝ), 0⟩]
    (by norm_num) (by rw [hval]; norm_num)
    (by
      rw [hval]
      intro j hj i
      rcases List.mem_cons.mp hj with h | h
      · subst h
        norm_num
      · rcases List.mem_cons.mp h with h | h
        · subst h
          norm_num
        · simp at h)
  exact ⟨h.1, h.2.2⟩

/-- Counterexample to claim C5: with a single completed expert whose CR is
0.3 (so zero experts qualify), the analysis returns the insufficient-data
signal carrying count 1 (the number of completed judgments, app.py line
718), not the qualifying count 0. -/
theorem insufficient_data_count_counterexample :
    perform_comprehensive_analysis 1 [⟨fun _ => (1 : ℝ), 0.3⟩] = .insufficientData 1
    ∧ (valid_judgments 1 [⟨fun _ => (1 : ℝ), 0.3⟩]).length = 0
    ∧ perform_comprehensive_analysis 1 [⟨fun _ => (1 : ℝ), 0.3⟩] ≠
        .insufficientData 0 := by
  have hd : decide ((0.3 : ℝ) < 0.2) = false := decide_eq_false (by norm_num)
  refine ⟨?_, ?_, ?_⟩
  · simp [perform_comprehensive_analysis]
  · simp [valid_judgments, List.filter, hd]
  · simp [perform_comprehensive_analysis]

/-- Claim C5 (amended): whenever fewer than 2 experts qualify (CR < 0.20),
the analysis returns the distinct insufficient-data signal, never a
computed group result; the carried count is the number of qualifying
experts when at least 2 experts completed the level, and the number of
completed experts when fewer than 2 did; in particular, with exactly 1
qualifying expert the signal always reports count 1. -/
theorem insufficient_data_signal_amended (nc : ℕ) (js : List (ExpertJudgment nc))
    (h : (valid_judgments nc js).length < 2) :
    ∃ c, perform_comprehensive_analysis nc js = .insufficientData c
      ∧ (2 ≤ js.length → c = (valid_judgments nc js).length)
      ∧ (js.length < 2 → c = js.length)
      ∧ ((valid_judgments nc js).length = 1 → c = 1) := by
  have hle : (valid_judgments nc js).length ≤ js.length :=
    List.length_filter_le _ _
  by_cases hj : js.length < 2
  · refine ⟨js.length, ?_, ?_, fun _ => rfl, ?_⟩
    · simp [perform_comprehensive_analysis, hj]
    · intro h2
      omega
    · intro h1
      omega
  · refine ⟨(valid_judgments nc js).length, ?_, fun _ => rfl, ?_, fun h1 => h1⟩
    · simp [perform_comprehensive_analysis, hj, h]
    · intro h2
      omega

/-- Witness for `insufficient_data_signal_amended`: two completed experts
of which exactly one qualifies (the other has CR 0.3 ≥ 0.2). -/
theorem insufficient_data_signal_amended_witness :
    ∃ c, perform_comprehensive_analysis 1 [⟨fun _ => (1 : ℝ), 0.3⟩, ⟨fun _ => (1 : ℝ), 0.1⟩] =
        .insufficientData c
      ∧ (2 ≤ ([⟨fun _ => (1 : ℝ), 0.3⟩, ⟨fun _ => (1 : ℝ), 0.1⟩] :
          List (ExpertJudgment 1)).length →
          c = (valid_judgments 1 [⟨fun _ => (1 : ℝ), 0.3⟩, ⟨fun _ => (1 : ℝ), 0.1⟩]).length)
      ∧ (([⟨fun _ => (1 : ℝ), 0.3⟩, ⟨fun _ => (1 : ℝ), 0.1⟩] :
          List (ExpertJudgment 1)).length < 2 →
          c = ([⟨fun _ => (1 : ℝ), 0.3⟩, ⟨fun _ => (1 : ℝ), 0.1⟩] :
            List (ExpertJudgment 1)).length)
      ∧ ((valid_judgments 1 [⟨fun _ => (1 : ℝ), 0.3⟩, ⟨fun _ => (1 : ℝ), 0.1⟩]).length = 1 →
          c = 1) := by
  apply insufficient_data_signal_amended
  have h3 : decide ((0.3 : ℝ) < 0.2) = false := decide_eq_false (by norm_num)
  have h1 : decide ((0.1 : ℝ) < 0.2) = true := decide_eq_true (by norm_num)
  simp [valid_judgments, List.filter, h3, h1]

/-- Counterexample to claim C7: a negative pairwise value (-2 for the pair
(0,1) of a 2×2 matrix) is accepted by the matrix construction, which
returns a matrix containing the offending value unchanged — no error of
any kind is raised and no validation is performed (app.py lines 522-575
contain no check of the supplied intensities). -/
theorem no_input_validation_counterexample :
    buildJudgmentMatrix 2 (fun _ _ => (-2 : ℝ)) 0 1 = -2
    ∧ buildJudgmentMatrix 2 (fun _ _ => (-2 : ℝ)) 1 0 = 1 / (-2)
    ∧ buildJudgmentMatrix 2 (fun _ _ => (-2 : ℝ)) 0 1 < 0 := by
  have h01 : buildJudgmentMatrix 2 (fun _ _ => (-2 : ℝ)) 0 1 = -2 := by
    show (if (0 : Fin 2) = 1 then (1 : ℝ) else if (0 : Fin 2) < 1 then -2 else 1 / -2) = -2
    rw [if_neg (by decide), if_pos (by decide)]
  have h10 : buildJudgmentMatrix 2 (fun _ _ => (-2 : ℝ)) 1 0 = 1 / (-2) := by
    show (if (1 : Fin 2) = 0 then (1 : ℝ) else if (1 : Fin 2) < 0 then -2 else 1 / -2) = 1 / (-2)
    rw [if_neg (by decide), if_neg (by decide)]
  refine ⟨h01, h10, ?_⟩
  rw [h01]
  norm_num

/-- Claim C7 (amended): the matrix-construction and weight-solving
functions perform no input validation: a negative pairwise value is
accepted with no error of any kind — it is placed at `M[i][j]` unchanged
and its finite negative reciprocal `1/v` at `M[j][i]`, so both entries of
the pair come out negative, and no default value is ever silently
substituted.  No descriptive error identifying the offending index pair
exists anywhere in the code: a zero value only raises a bare
ZeroDivisionError from `1 / importance` (app.py line 575), and n = 0 a
bare ZeroDivisionError from `1 / n` in the solver. -/
theorem no_input_validation_amended (n : ℕ) (v : Fin n → Fin n → ℝ)
    (i j : Fin n) (h : i < j) (hneg : v i j < 0) :
    buildJudgmentMatrix n v i j = v i j
    ∧ buildJudgmentMatrix n v j i = 1 / v i j
    ∧ buildJudgmentMatrix n v i j < 0
    ∧ buildJudgmentMatrix n v j i < 0 := by
  have hij : buildJudgmentMatrix n v i j = v i j := by
    simp only [buildJudgmentMatrix]
    rw [if_neg h.ne, if_pos h]
  have hji : buildJudgmentMatrix n v j i = 1 / v i j := by
    simp only [buildJudgmentMatrix]
    rw [if_neg h.ne', if_neg (not_lt.mpr h.le)]
  refine ⟨hij, hji, ?_, ?_⟩
  · rw [hij]
    exact hneg
  · rw [hji]
    exact one_div_neg.mpr hneg

/-- Witness for `no_input_validation_amended`: the negative intensity -2
flows through the construction unchanged, with reciprocal -1/2. -/
theorem no_input_validation_amended_witness :
    buildJudgmentMatrix 2 (fun _ _ => (-2 : ℝ)) 0 1 = -2
    ∧ buildJudgmentMatrix 2 (fun _ _ => (-2 : ℝ)) 1 0 = 1 / (-2)
    ∧ buildJudgmentMatrix 2 (fun _ _ => (-2 : ℝ)) 0 1 < 0
    ∧ buildJudgmentMatrix 2 (fun _ _ => (-2 : ℝ)) 1 0 < 0 :=
  no_input_validation_amended 2 (fun _ _ => (-2 : ℝ)) 0 1 (by decide) (by norm_num)

lemma sub_rows_leaf_sum (parent : ℕ) (topW : ℝ) (ws : List ℝ) :
    ∀ j, ((sub_rows parent topW j ws).map leaf_weight).sum = topW * ws.sum := by
  induction ws with
  | nil =>
      intro j
      simp [sub_rows]
  | cons w rest ih =>
      intro j
      simp only [sub_rows, List.map_cons, List.sum_cons, leaf_weight, ih (j + 1),
        List.sum_cons]
      ring

lemma hierarchy_rows_leaf_sum (subW : ℕ → Option (List ℝ))
    (h : ∀ k, ∃ ws, subW k = some ws ∧ ws.sum = 1) (tw : List ℝ) :
    ∀ i, ((hierarchy_rows subW i tw).map leaf_weight).sum = tw.sum := by
  induction tw with
  | nil =>
      intro i
      simp [hierarchy_rows]
  | cons w rest ih =>
      intro i
      obtain ⟨ws, hws, hsum⟩ := h i
      simp only [hierarchy_rows, hws, List.map_append, List.sum_append, List.map_cons,
        List.sum_cons, leaf_weight, sub_rows_leaf_sum, hsum, ih (i + 1), List.sum_cons]
      ring

lemma mem_sub_rows (parent : ℕ) (topW : ℝ) (ws : List ℝ) :
    ∀ j0 j, j < ws.length →
      HierarchyRow.sub parent (j0 + j) (topW * ws.getD j 0) (ws.getD j 0) ∈
        sub_rows parent topW j0 ws := by
  induction ws with
  | nil =>
      intro j0 j hj
      simp at hj
  | cons w rest ih =>
      intro j0 j hj
      cases j with
      | zero =>
          simp [sub_rows]
      | succ m =>
          have hm : m < rest.length := by simpa using hj
          have := ih (j0 + 1) m hm
          simp only [sub_rows, List.mem_cons]
          right
          have harith : j0 + (m + 1) = j0 + 1 + m := by omega
          rw [harith]
          simpa using this

lemma mem_hierarchy_rows_top (subW : ℕ → Option (List ℝ)) (tw : List ℝ) :
    ∀ i0 k, k < tw.length →
      HierarchyRow.top (i0 + k) (tw.getD k 0) ∈ hierarchy_rows subW i0 tw := by
  induction tw with
  | nil =>
      intro i0 k hk
      simp at hk
  | cons w rest ih =>
      intro i0 k hk
      cases k with
      | zero =>
          simp [hierarchy_rows]
      | succ m =>
          have hm : m < rest.length := by simpa using hk
          have := ih (i0 + 1) m hm
          simp only [hierarchy_rows, List.mem_append, List.mem_cons]
          right
          have harith : i0 + (m + 1) = i0 + 1 + m := by omega
          rw [harith]
          simpa using this

lemma mem_hierarchy_rows_sub (subW : ℕ → Option (List ℝ)) (tw : List ℝ) :
    ∀ i0 k, k < tw.length → ∀ ws, subW (i0 + k) = some ws →
      ∀ j, j < ws.length →
        HierarchyRow.sub (i0 + k) j (tw.getD k 0 * ws.getD j 0) (ws.getD j 0) ∈
          hierarchy_rows subW i0 tw := by
  induction tw with
  | nil =>
      intro i0 k hk
      simp at hk
  | cons w rest ih =>
      intro i0 k hk ws hws j hj
      cases k with
      | zero =>
          simp only [Nat.add_zero] at hws
          have hmem := mem_sub_rows (i0) w ws 0 j hj
          simp only [Nat.zero_add] at hmem
          simp only [hierarchy_rows, hws, List.mem_append, List.mem_cons]
          left
          right
          simpa using hmem
      | succ m =>
          have hm : m < rest.length := by simpa using hk
          have harith : i0 + (m + 1) = i0 + 1 + m := by omega
          rw [harith] at hws ⊢
          have := ih (i0 + 1) m hm ws hws j hj
          simp only [hierarchy_rows, List.mem_append]
          right
          simpa using this

lemma mem_sub_rows_shape (parent : ℕ) (topW : ℝ) (ws : List ℝ) :
    ∀ j0 r, r ∈ sub_rows parent topW j0 ws →
      ∃ j aw rw, r = HierarchyRow.sub parent j aw rw := by
  induction ws with
  | nil =>
      intro j0 r hr
      simp [sub_rows] at hr
  | cons w rest ih =>
      intro j0 r hr
      simp only [sub_rows, List.mem_cons] at hr
      rcases hr with hr | hr
      · exact ⟨j0, topW * w, w, hr⟩
      · exact ih (j0 + 1) r hr

lemma sub_mem_hierarchy_rows_has_subW (subW : ℕ → Option (List ℝ)) (tw : List ℝ) :
    ∀ i0 p j aw rw, HierarchyRow.sub p j aw rw ∈ hierarchy_rows subW i0 tw →
      subW p ≠ none := by
  induction tw with
  | nil =>
      intro i0 p j aw rw hr
      simp [hierarchy_rows] at hr
  | cons w rest ih =>
      intro i0 p j aw rw hr
      simp only [hierarchy_rows, List.mem_append, List.mem_cons] at hr
      rcases hr with (hr | hr) | hr
      · exact absurd hr (by simp)
      · cases hsub : subW i0 with
        | none =>
            rw [hsub] at hr
            simp at hr
        | some ws =>
            rw [hsub] at hr
            obtain ⟨j', aw', rw', heq⟩ := mem_sub_rows_shape i0 w ws 0 _ hr
            have hp : p = i0 := by
              injection heq with h1 _ _ _
            rw [hp, hsub]
            simp
      · exact ih (i0 + 1) p j aw rw hr

/-- Counterexample to claim C8: with top weights [1/2, 1/2], criterion 0
decomposed and criterion 1 not, the row reported for criterion 1 (the
third row of the table) is `top 1 (1/2)` — exactly the same row the
export produces when criterion 1 does have a completed sub-level — so the
output carries no flag indicating the missing sub-decomposition; it
differs only by the absence of sub rows. -/
theorem hierarchy_missing_flag_counterexample :
    (composeHierarchy [(1 : ℝ) / 2, 1 / 2]
        (fun i => if i = 0 then some [1] else none)).getD 2 (HierarchyRow.top 0 0)
      = (composeHierarchy [(1 : ℝ) / 2, 1 / 2] (fun _ => some [1])).getD 2
          (HierarchyRow.top 0 0)
    ∧ (composeHierarchy [(1 : ℝ) / 2, 1 / 2]
        (fun i => if i = 0 then some [1] else none)).getD 2 (HierarchyRow.top 0 0)
      = HierarchyRow.top 1 (1 / 2) := by
  constructor
  · simp [composeHierarchy, hierarchy_rows, sub_rows]
  · simp [composeHierarchy, hierarchy_rows, sub_rows]

/-- Claim C8 (amended): every sub-criterion of a parent with a completed
sub-level analysis appears with absolute weight
`topWeight[parent] * subWeight[child]`; every top-level criterion is
reported with absolute weight equal to its own top-level weight whether
or not its sub-level is complete, and a missing sub-decomposition shows
up only as the absence of sub rows — no flag is attached and uniform
sub-weights are never assumed; when the top vector and all sub vectors
are present and sum to 1, the absolute weights over all leaves sum to 1
within 1e-9. -/
theorem hierarchy_composition_amended (topW : List ℝ) (subW : ℕ → Option (List ℝ)) :
    (∀ k, k < topW.length →
        HierarchyRow.top k (topW.getD k 0) ∈ composeHierarchy topW subW)
    ∧ (∀ k, k < topW.length → ∀ ws, subW k = some ws → ∀ j, j < ws.length →
        HierarchyRow.sub k j (topW.getD k 0 * ws.getD j 0) (ws.getD j 0) ∈
          composeHierarchy topW subW)
    ∧ (∀ p, subW p = none → ∀ j aw rw,
        HierarchyRow.sub p j aw rw ∉ composeHierarchy topW subW)
    ∧ (topW.sum = 1 → (∀ k, ∃ ws, subW k = some ws ∧ ws.sum = 1) →
        |leafWeightSum (composeHierarchy topW subW) - 1| ≤ 1e-9) := by
  refine ⟨?_, ?_, ?_, ?_⟩
  · intro k hk
    have := mem_hierarchy_rows_top subW topW 0 k hk
    simpa using this
  · intro k hk ws hws j hj
    have := mem_hierarchy_rows_sub subW topW 0 k hk ws (by simpa using hws) j hj
    simpa using this
  · intro p hp j aw rw hmem
    exact sub_mem_hierarchy_rows_has_subW subW topW 0 p j aw rw hmem hp
  · intro htop hall
    have := hierarchy_rows_leaf_sum subW hall topW 0
    rw [leafWeightSum, composeHierarchy, this, htop]
    norm_num

/-- Witness for `hierarchy_composition_amended` at the fully decomposed
one-criterion hierarchy. -/
theorem hierarchy_composition_amended_witness :
    HierarchyRow.top 0 (([(1 : ℝ)]).getD 0 0) ∈
      composeHierarchy [(1 : ℝ)] (fun _ => some [1])
    ∧ |leafWeightSum (composeHierarchy [(1 : ℝ)] (fun _ => some [1])) - 1| ≤ 1e-9 := by
  have h := hierarchy_composition_amended [(1 : ℝ)] (fun _ => some [1])
  exact ⟨h.1 0 (by norm_num),
    h.2.2.2 (by norm_num) (fun k => ⟨[1], rfl, by norm_num⟩)⟩

lemma geo_ratio_le {a b q : ℝ} (ha : 0 < a) (hb : 0 ≤ b) (hq : 0 ≤ q)
    (h : b ≤ q ^ 4 * a) : b ^ ((1 : ℝ) / 4) ≤ q * a ^ ((1 : ℝ) / 4) := by
  have h1 : b ^ ((1 : ℝ) / 4) ≤ (q ^ 4 * a) ^ ((1 : ℝ) / 4) :=
    Real.rpow_le_rpow hb h (by norm_num)
  have h2 : (q ^ 4 * a) ^ ((1 : ℝ) / 4) = q * a ^ ((1 : ℝ) / 4) := by
    rw [Real.mul_rpow (by positivity) ha.le]
    congr 1
    rw [← Real.rpow_natCast q 4, ← Real.rpow_mul hq]
    norm_num
  linarith

lemma example_ratio_step {n : ℕ} (M : Fin n → Fin n → ℝ) (a b : Fin n)
    (Pa Pb q : ℝ) (hPa : row_products n M a = Pa) (hPb : row_products n M b = Pb)
    (hPa0 : 0 < Pa) (hPb0 : 0 ≤ Pb) (hq : 0 ≤ q) (h : Pb ≤ q ^ 4 * Pa)
    (hn : ((n : ℕ) : ℝ) = 4) (hS : 0 < ∑ k, geometric_means n M k) :
    weights n M b ≤ q * weights n M a := by
  have hgb : geometric_means n M b ≤ q * geometric_means n M a := by
    simp only [geometric_means, hPa, hPb, hn]
    exact geo_ratio_le hPa0 hPb0 hq h
  simp only [weights, ← mul_div_assoc]
  exact (div_le_div_iff_of_pos_right hS).mpr hgb

lemma geometric_means_lt {n : ℕ} (M : Fin n → Fin n → ℝ) (a b : Fin n)
    (Pa Pb : ℝ) (hPa : row_products n M a = Pa) (hPb : row_products n M b = Pb)
    (hPb0 : 0 ≤ Pb) (h : Pb < Pa) (hn : 0 < n) :
    geometric_means n M b < geometric_means n M a := by
  have hcast : (0 : ℝ) < (n : ℝ) := by exact_mod_cast hn
  simp only [geometric_means, hPa, hPb]
  exact Real.rpow_lt_rpow hPb0 h (by positivity)

lemma weights_lt_weights {n : ℕ} (M : Fin n → Fin n → ℝ) (a b : Fin n)
    (hab : geometric_means n M b < geometric_means n M a)
    (hS : 0 < ∑ k, geometric_means n M k) :
    weights n M b < weights n M a := by
  simp only [weights]
  exact (div_lt_div_iff_of_pos_right hS).mpr hab

/-- Claim C9: for the 4×4 judgment matrix with upper triangle
`M[0][1]=3, M[0][2]=5, M[0][3]=2, M[1][2]=2, M[1][3]=1/2, M[2][3]=1/4`,
the solver's weight vector has its strictly largest component at index 0
and the computed consistency ratio is strictly below 0.10. -/
theorem known_example_evaluation :
    (∀ i : Fin 4, i ≠ 0 → weights 4 exampleMatrix i < weights 4 exampleMatrix 0)
    ∧ (calculate_weights_and_consistency 4 exampleMatrix).2.1 < 0.1 := by
  have hMpos : ∀ i j, 0 < exampleMatrix i j := by
    intro i j
    fin_cases i <;> fin_cases j <;>
      norm_num [exampleMatrix, Matrix.cons_val_zero, Matrix.cons_val_one,
        Matrix.head_cons, Matrix.cons_val_two, Matrix.tail_cons, Matrix.cons_val_three]
  have hP0 : row_products 4 exampleMatrix 0 = 30 := by
    norm_num [row_products, exampleMatrix, Fin.prod_univ_four, Matrix.cons_val_zero,
      Matrix.cons_val_one, Matrix.head_cons, Matrix.cons_val_two, Matrix.tail_cons,
      Matrix.cons_val_three]
  have hP1 : row_products 4 exampleMatrix 1 = 1 / 3 := by
    norm_num [row_products, exampleMatrix, Fin.prod_univ_four, Matrix.cons_val_zero,
      Matrix.cons_val_one, Matrix.head_cons, Matrix.cons_val_two, Matrix.tail_cons,
      Matrix.cons_val_three]
  have hP2 : row_products 4 exampleMatrix 2 = 1 / 40 := by
    norm_num [row_products, exampleMatrix, Fin.prod_univ_four, Matrix.cons_val_zero,
      Matrix.cons_val_one, Matrix.head_cons, Matrix.cons_val_two, Matrix.tail_cons,
      Matrix.cons_val_three]
  have hP3 : row_products 4 exampleMatrix 3 = 4 := by
    norm_num [row_products, exampleMatrix, Fin.prod_univ_four, Matrix.cons_val_zero,
      Matrix.cons_val_one, Matrix.head_cons, Matrix.cons_val_two, Matrix.tail_cons,
      Matrix.cons_val_three]
  have hS : 0 < ∑ k, geometric_means 4 exampleMatrix k :=
    sum_geometric_means_pos (by norm_num) hMpos
  have hcast : ((4 : ℕ) : ℝ) = 4 := by norm_num
  -- the twelve pairwise weight-ratio bounds (w b ≤ q * w a)
  have hw10 : weights 4 exampleMatrix 1 ≤ 33 / 100 * weights 4 exampleMatrix 0 :=
    example_ratio_step _ 0 1 30 (1 / 3) _ hP0 hP1 (by norm_num) (by norm_num)
      (by norm_num) (by norm_num) hcast hS
  have hw20 : weights 4 exampleMatrix 2 ≤ 18 / 100 * weights 4 exampleMatrix 0 :=
    example_ratio_step _ 0 2 30 (1 / 40) _ hP0 hP2 (by norm_num) (by norm_num)
      (by norm_num) (by norm_num) hcast hS
  have hw30 : weights 4 exampleMatrix 3 ≤ 61 / 100 * weights 4 exampleMatrix 0 :=
    example_ratio_step _ 0 3 30 4 _ hP0 hP3 (by norm_num) (by norm_num)
      (by norm_num) (by norm_num) hcast hS
  have hw01 : weights 4 exampleMatrix 0 ≤ 31 / 10 * weights 4 exampleMatrix 1 :=
    example_ratio_step _ 1 0 (1 / 3) 30 _ hP1 hP0 (by norm_num) (by norm_num)
      (by norm_num) (by norm_num) hcast hS
  have hw21 : weights 4 exampleMatrix 2 ≤ 53 / 100 * weights 4 exampleMatrix 1 :=
    example_ratio_step _ 1 2 (1 / 3) (1 / 40) _ hP1 hP2 (by norm_num) (by norm_num)
      (by norm_num) (by norm_num) hcast hS
  have hw31 : weights 4 exampleMatrix 3 ≤ 187 / 100 * weights 4 exampleMatrix 1 :=
    example_ratio_step _ 1 3 (1 / 3) 4 _ hP1 hP3 (by norm_num) (by norm_num)
      (by norm_num) (by norm_num) hcast hS
  have hw02 : weights 4 exampleMatrix 0 ≤ 59 / 10 * weights 4 exampleMatrix 2 :=
    example_ratio_step _ 2 0 (1 / 40) 30 _ hP2 hP0 (by norm_num) (by norm_num)
      (by norm_num) (by norm_num) hcast hS
  have hw12 : weights 4 exampleMatrix 1 ≤ 192 / 100 * weights 4 exampleMatrix 2 :=
    example_ratio_step _ 2 1 (1 / 40) (1 / 3) _ hP2 hP1 (by norm_num) (by norm_num)
      (by norm_num) (by norm_num) hcast hS
  have hw32 : weights 4 exampleMatrix 3 ≤ 36 / 10 * weights 4 exampleMatrix 2 :=
    example_ratio_step _ 2 3 (1 / 40) 4 _ hP2 hP3 (by norm_num) (by norm_num)
      (by norm_num) (by norm_num) hcast hS
  have hw03 : weights 4 exampleMatrix 0 ≤ 166 / 100 * weights 4 exampleMatrix 3 :=
    example_ratio_step _ 3 0 4 30 _ hP3 hP0 (by norm_num) (by norm_num)
      (by norm_num) (by norm_num) hcast hS
  have hw13 : weights 4 exampleMatrix 1 ≤ 54 / 100 * weights 4 exampleMatrix 3 :=
    example_ratio_step _ 3 1 4 (1 / 3) _ hP3 hP1 (by norm_num) (by norm_num)
      (by norm_num) (by norm_num) hcast hS
  have hw23 : weights 4 exampleMatrix 2 ≤ 29 / 100 * weights 4 exampleMatrix 3 :=
    example_ratio_step _ 3 2 4 (1 / 40) _ hP3 hP2 (by norm_num) (by norm_num)
      (by norm_num) (by norm_num) hcast hS
  have hw0 : 0 < weights 4 exampleMatrix 0 := weights_pos (by norm_num) hMpos 0
  have hw1 : 0 < weights 4 exampleMatrix 1 := weights_pos (by norm_num) hMpos 1
  have hw2 : 0 < weights 4 exampleMatrix 2 := weights_pos (by norm_num) hMpos 2
  have hw3 : 0 < weights 4 exampleMatrix 3 := weights_pos (by norm_num) hMpos 3
  constructor
  · intro i hi
    fin_cases i
    · exact absurd rfl hi
    · exact weights_lt_weights _ 0 1
        (geometric_means_lt _ 0 1 30 (1 / 3) hP0 hP1 (by norm_num) (by norm_num)
          (by norm_num)) hS
    · exact weights_lt_weights _ 0 2
        (geometric_means_lt _ 0 2 30 (1 / 40) hP0 hP2 (by norm_num) (by norm_num)
          (by norm_num)) hS
    · exact weights_lt_weights _ 0 3
        (geometric_means_lt _ 0 3 30 4 hP0 hP3 (by norm_num) (by norm_num)
          (by norm_num)) hS
  · have hws0 : weighted_sum 4 exampleMatrix 0 =
        weights 4 exampleMatrix 0 + 3 * weights 4 exampleMatrix 1 +
          5 * weights 4 exampleMatrix 2 + 2 * weights 4 exampleMatrix 3 := by
      simp only [weighted_sum, Fin.sum_univ_four, exampleMatrix, Matrix.cons_val_zero,
        Matrix.cons_val_one, Matrix.head_cons, Matrix.cons_val_two, Matrix.tail_cons,
        Matrix.cons_val_three]
      ring
    have hws1 : weighted_sum 4 exampleMatrix 1 =
        1 / 3 * weights 4 exampleMatrix 0 + weights 4 exampleMatrix 1 +
          2 * weights 4 exampleMatrix 2 + 1 / 2 * weights 4 exampleMatrix 3 := by
      simp only [weighted_sum, Fin.sum_univ_four, exampleMatrix, Matrix.cons_val_zero,
        Matrix.cons_val_one, Matrix.head_cons, Matrix.cons_val_two, Matrix.tail_cons,
        Matrix.cons_val_three]
      ring
    have hws2 : weighted_sum 4 exampleMatrix 2 =
        1 / 5 * weights 4 exampleMatrix 0 + 1 / 2 * weights 4 exampleMatrix 1 +
          weights 4 exampleMatrix 2 + 1 / 4 * weights 4 exampleMatrix 3 := by
      simp only [weighted_sum, Fin.sum_univ_four, exampleMatrix, Matrix.cons_val_zero,
        Matrix.cons_val_one, Matrix.head_cons, Matrix.cons_val_two, Matrix.tail_cons,
        Matrix.cons_val_three]
      ring
    have hws3 : weighted_sum 4 exampleMatrix 3 =
        1 / 2 * weights 4 exampleMatrix 0 + 2 * weights 4 exampleMatrix 1 +
          4 * weights 4 exampleMatrix 2 + weights 4 exampleMatrix 3 := by
      simp only [weighted_sum, Fin.sum_univ_four, exampleMatrix, Matrix.cons_val_zero,
        Matrix.cons_val_one, Matrix.head_cons, Matrix.cons_val_two, Matrix.tail_cons,
        Matrix.cons_val_three]
      ring
    have ht0 : weighted_sum 4 exampleMatrix 0 / weights 4 exampleMatrix 0 ≤
        433 / 100 := by
      rw [hws0, div_le_iff₀ hw0]
      linarith
    have ht1 : weighted_sum 4 exampleMatrix 1 / weights 4 exampleMatrix 1 ≤
        403 / 100 := by
      rw [hws1, div_le_iff₀ hw1]
      linarith
    have ht2 : weighted_sum 4 exampleMatrix 2 / weights 4 exampleMatrix 2 ≤
        404 / 100 := by
      rw [hws2, div_le_iff₀ hw2]
      linarith
    have ht3 : weighted_sum 4 exampleMatrix 3 / weights 4 exampleMatrix 3 ≤
        407 / 100 := by
      rw [hws3, div_le_iff₀ hw3]
      linarith
    have hlam : lambda_max 4 exampleMatrix =
        (weighted_sum 4 exampleMatrix 0 / weights 4 exampleMatrix 0 +
          weighted_sum 4 exampleMatrix 1 / weights 4 exampleMatrix 1 +
          weighted_sum 4 exampleMatrix 2 / weights 4 exampleMatrix 2 +
          weighted_sum 4 exampleMatrix 3 / weights 4 exampleMatrix 3) / 4 := by
      simp only [lambda_max, Fin.sum_univ_four]
      norm_num
    have hlam_le : lambda_max 4 exampleMatrix ≤ 1647 / 400 := by
      rw [hlam]
      linarith
    have hri : ri_values 4 = 0.90 := by norm_num [ri_values]
    have hcr : (calculate_weights_and_consistency 4 exampleMatrix).2.1 =
        (lambda_max 4 exampleMatrix - 4) / 3 / (9 / 10) := by
      show cr_from 4 (consistency_index 4 (lambda_max 4 exampleMatrix)) = _
      rw [cr_from, hri, if_pos (by norm_num), consistency_index, if_pos (by norm_num)]
      norm_num
    rw [hcr]
    linarith

/-- Witness for `known_example_evaluation` at index 1. -/
theorem known_example_evaluation_witness :
    weights 4 exampleMatrix 1 < weights 4 exampleMatrix 0
    ∧ (calculate_weights_and_consistency 4 exampleMatrix).2.1 < 0.1 :=
  ⟨known_example_evaluation.1 1 (by decide), known_example_evaluation.2⟩

end AHP
